import Mathlib

/-!
Verification of the slogger repository (a secure log ingestion and query
service written in Go) against its natural-language specification.

The Go sources are shallowly embedded: log records (`logitem.go`'s
`LogItem` struct) become a Lean structure, the reflection-driven field
registry becomes explicit tables built from the struct's declaration and
its tag strings, and each operation (`normalise`, `makeHash`, `checkHash`,
the append pipeline of `makeHashAndInsert`, the query translator
`jsonToDbKeys`, the sort parser of `queryLogItem`, the executor
`queryLogItems`, and the syslog client handling of `processLogParts`)
becomes an executable Lean function translated from the corresponding Go
function.  Go machine integers are modelled as `Int`/`Nat`; Go strings as
Lean `String` with an explicit UTF-8 byte encoding for the places where
the code manipulates `[]byte`; fallible/panicking paths return `Option` or
`Except`.
-/

/- ## Byte and hex helpers -/

/-- UTF-8 encoding of one character, as the list of its byte values.
Models the bytes Go stores for one rune inside a `string`. -/
def charBytes (c : Char) : List Nat :=
  let n := c.toNat
  if n < 128 then [n]
  else if n < 2048 then [192 + n / 64, 128 + n % 64]
  else if n < 65536 then [224 + n / 4096, 128 + (n / 64) % 64, 128 + n % 64]
  else [240 + n / 262144, 128 + (n / 4096) % 64, 128 + (n / 64) % 64, 128 + n % 64]

/-- The raw UTF-8 bytes of a string; models Go's `[]byte(s)`. -/
def strBytes (s : String) : List Nat :=
  s.data.flatMap charBytes

/-- Lowercase hex rendering of a natural number, no fixed width;
models Go's `fmt.Sprintf("%x", n)` for nonnegative values. -/
def natToHexStr (n : Nat) : String :=
  String.mk (Nat.toDigits 16 n)

/-- Lowercase hex rendering of an integer; Go's `%x` verb prints a
negative integer as a minus sign followed by the hex of its magnitude. -/
def intToHexStr (i : Int) : String :=
  if i < 0 then "-" ++ natToHexStr (-i).toNat else natToHexStr i.toNat

/-- Two lowercase hex digits for one byte value. -/
def byteToHex (b : Nat) : List Char :=
  [Nat.digitChar (b / 16), Nat.digitChar (b % 16)]

/-- Lowercase hex rendering of a byte sequence.  For a 32-byte SHA-256
digest this gives exactly the 64 characters of Go's `%064x`. -/
def bytesToHexStr (bs : List Nat) : String :=
  String.mk (bs.flatMap byteToHex)

/-- Whether a character is one of the sixteen lowercase hex digits. -/
def isLowerHexDigit (c : Char) : Bool :=
  (48 ≤ c.toNat && c.toNat ≤ 57) || (97 ≤ c.toNat && c.toNat ≤ 102)

/-- ASCII lowercase mapping for one character.  Models Go's
`strings.ToLower` on the ASCII inputs the code compares against (all
registry keys and operator names are ASCII). -/
def lowerChar (c : Char) : Char :=
  if 65 ≤ c.toNat ∧ c.toNat ≤ 90 then Char.ofNat (c.toNat + 32) else c

/-- `strings.ToLower`. -/
def lowerStr (s : String) : String :=
  String.mk (s.data.map lowerChar)

/-- `strings.Split` on a one-character separator, accumulator form. -/
def splitCharAux (sep : Char) : List Char → List Char → List (List Char)
  | [], acc => [acc.reverse]
  | c :: rest, acc =>
    if c == sep then acc.reverse :: splitCharAux sep rest []
    else splitCharAux sep rest (c :: acc)

/-- `strings.Split(s, sep)` for a one-character separator; the empty
string yields one empty component, as in Go. -/
def splitStr (s : String) (sep : Char) : List String :=
  (splitCharAux sep s.data []).map String.mk

/-- `strings.HasPrefix(s, c)` for a one-character pattern. -/
def headIs (c : Char) (s : String) : Bool :=
  match s.data with
  | x :: _ => x == c
  | [] => false

/-- `strings.TrimPrefix` for a one-character pattern  (drop the first
character when it matches). -/
def tailStr (s : String) : String :=
  String.mk s.data.tail

/- ## SHA-256 (crypto/sha256), executable over `Nat` bytes -/

/-- Truncation to 32 bits. -/
def w32 (n : Nat) : Nat := n % 4294967296

/-- 32-bit rotate right. -/
def rotr32 (x n : Nat) : Nat := w32 ((x >>> n) ||| (x <<< (32 - n)))

def sha256S0 (x : Nat) : Nat := rotr32 x 2 ^^^ rotr32 x 13 ^^^ rotr32 x 22

def sha256S1 (x : Nat) : Nat := rotr32 x 6 ^^^ rotr32 x 11 ^^^ rotr32 x 25

def sha256s0 (x : Nat) : Nat := rotr32 x 7 ^^^ rotr32 x 18 ^^^ (x >>> 3)

def sha256s1 (x : Nat) : Nat := rotr32 x 17 ^^^ rotr32 x 19 ^^^ (x >>> 10)

/-- SHA-256 choice function; complement is xor against the 32-bit mask. -/
def sha256Ch (e f g : Nat) : Nat := (e &&& f) ^^^ ((e ^^^ 4294967295) &&& g)

def sha256Maj (a b c : Nat) : Nat := (a &&& b) ^^^ (a &&& c) ^^^ (b &&& c)

def sha256K : List Nat :=
  [1116352408, 1899447441, 3049323471, 3921009573, 961987163, 1508970993,
   2453635748, 2870763221, 3624381080, 310598401, 607225278, 1426881987,
   1925078388, 2162078206, 2614888103, 3248222580, 3835390401, 4022224774,
   264347078, 604807628, 770255983, 1249150122, 1555081692, 1996064986,
   2554220882, 2821834349, 2952996808, 3210313671, 3336571891, 3584528711,
   113926993, 338241895, 666307205, 773529912, 1294757372, 1396182291,
   1695183700, 1986661051, 2177026350, 2456956037, 2730485921, 2820302411,
   3259730800, 3345764771, 3516065817, 3600352804, 4094571909, 275423344,
   430227734, 506948616, 659060556, 883997877, 958139571, 1322822218,
   1537002063, 1747873779, 1955562222, 2024104815, 2227730452, 2361852424,
   2428436474, 2756734187, 3204031479, 3329325298]

def sha256H0 : List Nat :=
  [1779033703, 3144134277, 1013904242, 2773480762,
   1359893119, 2600822924, 528734635, 1541459225]

/-- Big-endian 4-byte rendering of a 32-bit word. -/
def be32 (n : Nat) : List Nat :=
  [(n >>> 24) % 256, (n >>> 16) % 256, (n >>> 8) % 256, n % 256]

/-- Big-endian 8-byte rendering of the 64-bit message bit length. -/
def be64 (n : Nat) : List Nat :=
  [(n >>> 56) % 256, (n >>> 48) % 256, (n >>> 40) % 256, (n >>> 32) % 256,
   (n >>> 24) % 256, (n >>> 16) % 256, (n >>> 8) % 256, n % 256]

/-- SHA-256 padding: one 0x80 byte, zeros to 56 mod 64, 64-bit length. -/
def sha256Pad (msg : List Nat) : List Nat :=
  let zeros := (64 + 55 - msg.length % 64) % 64
  msg ++ [128] ++ List.replicate zeros 0 ++ be64 (msg.length * 8)

/-- Group 4 big-endian bytes into one 32-bit word. -/
def bytesToWords : List Nat → List Nat
  | b0 :: b1 :: b2 :: b3 :: rest =>
    (((b0 * 256 + b1) * 256 + b2) * 256 + b3) :: bytesToWords rest
  | _ => []

/-- Split a padded message into 64-byte blocks.  The fuel argument (any
bound on the number of remaining bytes) keeps the recursion structural so
that the kernel can evaluate it. -/
def sha256Blocks (fuel : Nat) (l : List Nat) : List (List Nat) :=
  match fuel with
  | 0 => []
  | fuel + 1 => if l.isEmpty then [] else l.take 64 :: sha256Blocks fuel (l.drop 64)

/-- Extend the 16 message words to the 64-entry message schedule. -/
def sha256Extend (w : Array Nat) : Array Nat :=
  (List.range 48).foldl
    (fun w _ =>
      let n := w.size
      w.push (w32 (sha256s1 (w.getD (n - 2) 0) + w.getD (n - 7) 0 +
                   sha256s0 (w.getD (n - 15) 0) + w.getD (n - 16) 0)))
    w

/-- One SHA-256 compression round over a 64-byte block. -/
def sha256Compress (hs : List Nat) (block : List Nat) : List Nat :=
  let w := sha256Extend (bytesToWords block).toArray
  let st0 := (hs.getD 0 0, hs.getD 1 0, hs.getD 2 0, hs.getD 3 0,
              hs.getD 4 0, hs.getD 5 0, hs.getD 6 0, hs.getD 7 0)
  let stN := (List.range 64).foldl
    (fun st i =>
      let (a, b, c, d, e, f, g, h) := st
      let t1 := w32 (h + sha256S1 e + sha256Ch e f g + sha256K.getD i 0 + w.getD i 0)
      let t2 := w32 (sha256S0 a + sha256Maj a b c)
      (w32 (t1 + t2), a, b, c, w32 (d + t1), e, f, g))
    st0
  match stN with
  | (a, b, c, d, e, f, g, h) =>
    [w32 (hs.getD 0 0 + a), w32 (hs.getD 1 0 + b), w32 (hs.getD 2 0 + c),
     w32 (hs.getD 3 0 + d), w32 (hs.getD 4 0 + e), w32 (hs.getD 5 0 + f),
     w32 (hs.getD 6 0 + g), w32 (hs.getD 7 0 + h)]

/-- SHA-256 of a byte sequence, as 32 bytes; models Go's
`sha256.Sum256`. -/
def sha256 (msg : List Nat) : List Nat :=
  let padded := sha256Pad msg
  ((sha256Blocks padded.length padded).foldl sha256Compress sha256H0).flatMap be32

/- ## Data model (logitem.go) -/

/-- Model of Go's `time.Time` as used by the code: only the `IsZero` test
and the `UnixNano` value are ever consulted.  `zeroTime` carries the
`UnixNano` of Go's zero `time.Time`; the code never reads the nanoseconds
of a zero time. -/
structure GoTime where
  isZero : Bool
  unixNano : Int
deriving DecidableEq, Repr

def zeroTime : GoTime := { isZero := true, unixNano := -6795364578871345152 }

/-- The `LogItem` struct of logitem.go.  Go `int`/`int64` fields are
modelled as `Int`. -/
structure LogItem where
  Message : String
  InstanceId : String
  AccountGroupId : String
  Level : String
  Exception : String
  OriginatorTime : GoTime
  Pid : Int
  OriginatorIp : String
  OriginatorPort : Int
  Facility : String
  Hostname : String
  User : String
  Time : GoTime
  LevelNo : Int
  Hash : String
  PreviousHash : String
  SequenceId : Int
  ShardGroup : Int
  FormatVersion : Int
  Verified : Bool
deriving DecidableEq, Repr

/-- The Go zero value of `LogItem`. -/
def blankLogItem : LogItem :=
  { Message := "", InstanceId := "", AccountGroupId := "", Level := "",
    Exception := "", OriginatorTime := zeroTime, Pid := 0, OriginatorIp := "",
    OriginatorPort := 0, Facility := "", Hostname := "", User := "",
    Time := zeroTime, LevelNo := 0, Hash := "", PreviousHash := "",
    SequenceId := 0, ShardGroup := 0, FormatVersion := 0, Verified := false }

/- ## Field registry (initFieldProperties / buildJsonMap) -/

/-- One struct field as reflection sees it: Go name, `json:` tag name and
`slogger:` tag string.  The rows are `LogItem`'s fields in declaration
order, with the tag strings copied from logitem.go. -/
structure FieldMeta where
  goName : String
  jsonName : String
  sloggerTag : String
deriving DecidableEq, Repr

def logItemStructFields : List FieldMeta :=
  [{ goName := "Message", jsonName := "message", sloggerTag := "" },
   { goName := "InstanceId", jsonName := "instance_id", sloggerTag := "" },
   { goName := "AccountGroupId", jsonName := "account_group_id", sloggerTag := "" },
   { goName := "Level", jsonName := "level", sloggerTag := "" },
   { goName := "Exception", jsonName := "exception", sloggerTag := "" },
   { goName := "OriginatorTime", jsonName := "timestamp", sloggerTag := "" },
   { goName := "Pid", jsonName := "pid", sloggerTag := "" },
   { goName := "OriginatorIp", jsonName := "originator_ip", sloggerTag := "" },
   { goName := "OriginatorPort", jsonName := "originator_port", sloggerTag := "" },
   { goName := "Facility", jsonName := "facility", sloggerTag := "" },
   { goName := "Hostname", jsonName := "hostname", sloggerTag := "" },
   { goName := "User", jsonName := "user", sloggerTag := "" },
   { goName := "Time", jsonName := "time", sloggerTag := "" },
   { goName := "LevelNo", jsonName := "level_no", sloggerTag := "" },
   { goName := "Hash", jsonName := "hash", sloggerTag := "nohash" },
   { goName := "PreviousHash", jsonName := "previous_hash", sloggerTag := "" },
   { goName := "SequenceId", jsonName := "sequence_id", sloggerTag := "" },
   { goName := "ShardGroup", jsonName := "shard_group", sloggerTag := "" },
   { goName := "FormatVersion", jsonName := "format_version", sloggerTag := "" },
   { goName := "Verified", jsonName := "verified", sloggerTag := "nohash,noquery,noindex" }]

/-- The flag constants fpPresent/fpNoHash/fpNoQuery/fpNoIndex. -/
inductive FieldProp
  | present
  | noHash
  | noQuery
  | noIndex
deriving DecidableEq, Repr

/-- The property set `initFieldProperties` derives from one `slogger:`
tag: every field is marked present; the comma-separated tag components
set the other flags (an empty tag contributes nothing). -/
def tagProps (tag : String) : List FieldProp :=
  FieldProp.present ::
    (splitStr tag ',').filterMap fun comp =>
      match comp with
      | "nohash" => some .noHash
      | "noquery" => some .noQuery
      | "noindex" => some .noIndex
      | _ => none

/-- The `logItemFields` map is keyed by the lowercased Go field name and
`getFieldProperty` lowercases its argument before the lookup. -/
def findFieldMeta (field : String) : Option FieldMeta :=
  logItemStructFields.find? fun f => lowerStr f.goName == lowerStr field

/-- `hasFieldProperty` of logitem.go. -/
def hasFieldProperty (field : String) (p : FieldProp) : Bool :=
  match findFieldMeta field with
  | some f => (tagProps f.sloggerTag).contains p
  | none => false

/-- Byte-wise (for these ASCII names equivalently code-point-wise)
string comparison, as Go's `sort.Strings` uses. -/
def charListLe : List Char → List Char → Bool
  | [], _ => true
  | _ :: _, [] => false
  | a :: as, b :: bs =>
    a.toNat < b.toNat || (a.toNat == b.toNat && charListLe as bs)

def strLe (a b : String) : Bool := charListLe a.data b.data

def insertSorted (x : String) : List String → List String
  | [] => [x]
  | y :: ys => if strLe x y then x :: y :: ys else y :: insertSorted x ys

/-- Stable insertion sort; models the effect of Go's `sort.Strings`. -/
def sortStrings (l : List String) : List String := l.foldr insertSorted []

/-- `logItemFieldList`: the exported field names, sorted
lexicographically by `initFieldProperties`. -/
def logItemFieldList : List String :=
  sortStrings (logItemStructFields.map (·.goName))

/-- `jsonMap` of database.go: external JSON name to lowercase storage
name, one entry per exported field. -/
def jsonMapList : List (String × String) :=
  logItemStructFields.map fun f => (f.jsonName, lowerStr f.goName)

/- ## Record normaliser (LogItem.normalise) -/

def levelMap : List (String × Int) :=
  [("alert", 1), ("crit", 2), ("debug", 7), ("emerg", 0), ("err", 3),
   ("error", 3), ("info", 6), ("none", -1), ("notice", 5), ("panic", 0),
   ("warn", 4), ("warning", 4)]

/-- `normalise` of logitem.go.  The wall clock read by `time.Now()` is an
explicit argument. -/
def normalise (l : LogItem) (now : GoTime) : LogItem :=
  let levelNo :=
    match levelMap.lookup (lowerStr l.Level) with
    | some v => v
    | none => (levelMap.lookup "none").getD 0
  let time := if l.Time.isZero then now else l.Time
  let originatorTime := if l.OriginatorTime.isZero then time else l.OriginatorTime
  { l with LevelNo := levelNo, Time := time, OriginatorTime := originatorTime,
           FormatVersion := 1, Verified := false }

/- ## Canonical hasher (LogItem.makeHash / LogItem.checkHash) -/

/-- A field value as `makeHash`'s dynamic type switch sees it.  The four
integer cases of the switch (`int`, `int64` and the unsigned variants in
the query validator) are all printed with `%x`, so one `intV`
constructor models them. -/
inductive FieldVal
  | timeV (t : GoTime)
  | strV (s : String)
  | intV (i : Int)
  | boolV (b : Bool)
deriving DecidableEq, Repr

/-- `structs.New(l).FieldOk(k)` for the twenty exported fields. -/
def fieldValue (l : LogItem) : String → Option FieldVal
  | "Message" => some (.strV l.Message)
  | "InstanceId" => some (.strV l.InstanceId)
  | "AccountGroupId" => some (.strV l.AccountGroupId)
  | "Level" => some (.strV l.Level)
  | "Exception" => some (.strV l.Exception)
  | "OriginatorTime" => some (.timeV l.OriginatorTime)
  | "Pid" => some (.intV l.Pid)
  | "OriginatorIp" => some (.strV l.OriginatorIp)
  | "OriginatorPort" => some (.intV l.OriginatorPort)
  | "Facility" => some (.strV l.Facility)
  | "Hostname" => some (.strV l.Hostname)
  | "User" => some (.strV l.User)
  | "Time" => some (.timeV l.Time)
  | "LevelNo" => some (.intV l.LevelNo)
  | "Hash" => some (.strV l.Hash)
  | "PreviousHash" => some (.strV l.PreviousHash)
  | "SequenceId" => some (.intV l.SequenceId)
  | "ShardGroup" => some (.intV l.ShardGroup)
  | "FormatVersion" => some (.intV l.FormatVersion)
  | "Verified" => some (.boolV l.Verified)
  | _ => none

/-- The bytes `makeHash` appends for one hashed value: a zero timestamp
emits nothing, otherwise `%x` of `UnixNano`; a string emits its raw
bytes; an integer emits `%x`.  A `bool` reaches the switch's default
branch, which is `log.Panicf`, hence `none`. -/
def encodeFieldVal : FieldVal → Option (List Nat)
  | .timeV t => some (if t.isZero then [] else strBytes (intToHexStr t.unixNano))
  | .strV s => some (strBytes s)
  | .intV i => some (strBytes (intToHexStr i))
  | .boolV _ => none

def secret : String := "sekritsquirrel"

def shardGroup : Int := 1234

/-- The byte sequence `makeHash` accumulates in its buffer: for each name
of `logItemFieldList`, the value's encoding when the field exists and is
not `nohash`, then always one 0x00 terminator; finally the shared
secret. -/
def makeHashInput (l : LogItem) : Option (List Nat) :=
  (logItemFieldList.mapM fun k =>
      match fieldValue l k with
      | some v =>
        if hasFieldProperty k .noHash then some [0]
        else (encodeFieldVal v).map (· ++ [0])
      | none => some [0]).map
    fun (parts : List (List Nat)) => parts.flatten ++ strBytes secret

/-- `makeHash` of logitem.go: sets `Hash` to `%064x` of the SHA-256 of
the accumulated buffer. -/
def makeHash (l : LogItem) : Option LogItem :=
  (makeHashInput l).map fun input => { l with Hash := bytesToHexStr (sha256 input) }

/-- `subtle.ConstantTimeCompare`: 0 for different lengths, else 1 exactly
when all bytes match. -/
def constantTimeCompare (x y : List Nat) : Int :=
  if x.length ≠ y.length then 0
  else if (List.zipWith (fun a b => a ^^^ b) x y).foldl (· ||| ·) 0 = 0 then 1 else 0

/-- `checkHash` of logitem.go.  The Go method copies the receiver
(`tl := *l`), recomputes the hash on the copy and compares; the returned
pair is the receiver's state after the call together with the comparison
result. -/
def checkHash (l : LogItem) : Option (LogItem × Bool) :=
  (makeHash l).map fun tl =>
    (l, constantTimeCompare (strBytes tl.Hash) (strBytes l.Hash) == 1)

/- ## Append pipeline (LogItem.makeHashAndInsert) -/

/-- BSON stores timestamps at millisecond precision; `mgo` divides
`UnixNano` by 10^6 (Go division truncates toward zero).  `Verified` is
tagged `bson:",omitempty"`: `false` is omitted and unmarshals back to
`false`, so the round trip preserves it either way. -/
def msRound (t : GoTime) : GoTime :=
  if t.isZero then t else { t with unixNano := t.unixNano.tdiv 1000000 * 1000000 }

/-- The pre-hash `bson.Marshal`/`bson.Unmarshal` round trip of
`makeHashAndInsert`. -/
def bsonRoundTrip (l : LogItem) : LogItem :=
  { l with OriginatorTime := msRound l.OriginatorTime, Time := msRound l.Time }

/-- The record as it enters the retry loop: BSON round trip, then the
fixed shard group. -/
def prepareInsert (l : LogItem) : LogItem :=
  { bsonRoundTrip l with ShardGroup := shardGroup }

/-- The chain-head lookup
`Find(shardgroup).Sort("-sequenceid").Limit(1).One`: the record with the
highest `SequenceId` among those of the shard, or `none` (ErrNotFound)
when the shard has no records.  The store is modelled as the list of its
records. -/
def headUpd (acc : Option LogItem) (r : LogItem) : Option LogItem :=
  match acc with
  | none => some r
  | some p => if p.SequenceId < r.SequenceId then some r else some p

def findHead (store : List LogItem) (sg : Int) : Option LogItem :=
  (store.filter fun r => r.ShardGroup == sg).foldl headUpd none

/-- Lines 286-294 of logitem.go: chain position from the head lookup. -/
def assignPrev (l : LogItem) (prev : Option LogItem) : LogItem :=
  match prev with
  | none => { l with PreviousHash := "", SequenceId := 0 }
  | some p => { l with PreviousHash := p.Hash, SequenceId := p.SequenceId + 1 }

/-- One iteration of the append loop up to the `Insert` attempt: head
lookup, chain position, hash. -/
def appendIteration (store : List LogItem) (l : LogItem) : Option LogItem :=
  makeHash (assignPrev l (findHead store l.ShardGroup))

/-- A successful iteration: the first component is the record given to
`Insert` (what the store persists), the second the in-memory record after
`l.Verified = true`. -/
def appendSuccess (store : List LogItem) (l : LogItem) : Option (LogItem × LogItem) :=
  (appendIteration store l).map fun ins => (ins, { ins with Verified := true })

/- ## Query executor (queryLogItems) -/

/-- The sorted query `queryLogItems` gives the store: the caller's sort
keys with the intrinsic `_id` tie-breaker appended, and the limit only
when strictly positive. -/
structure StoreQuery where
  sortKeys : List String
  limit : Option Nat
deriving DecidableEq, Repr

def buildStoreQuery (sortOrder : List String) (limit : Int) : StoreQuery :=
  { sortKeys := sortOrder ++ ["_id"],
    limit := if 0 < limit then some limit.toNat else none }

/-- `q.Limit(limit)` is applied only when `limit > 0`. -/
def applyLimit (limit : Int) (rs : List LogItem) : List LogItem :=
  if 0 < limit then rs.take limit.toNat else rs

/-- The iteration of `queryLogItems` over the records the store returns
(modelled as the sorted match list `rs`): each record gets
`Verified = checkHash()` and is sent to the channel; the function returns
the streamed records, their count and `complete = true`. -/
def queryLogItems (rs : List LogItem) (limit : Int) : Option (List LogItem × Nat × Bool) :=
  ((applyLimit limit rs).mapM fun r =>
      (checkHash r).map fun rb => { r with Verified := rb.2 }).map
    fun out => (out, out.length, true)

/- ## Spec-side canonical serialisation (spec.md section 4.3)

The following definitions restate the hash input in the words of the
specification, independently of `makeHash`'s reflection loop: the storage
field names in stable lexicographic order, each with its semantic type
from the record table of section 3 and its hashed flag, a type-specific
encoding, one 0x00 terminator per field, and the shared secret after the
last field. -/

/-- A field value classified by the semantic type the specification
assigns to the field. -/
inductive SpecScalar
  | ts (t : GoTime)
  | txt (s : String)
  | num (i : Int)

/-- The type-specific encoding of section 4.3: a zero timestamp emits
nothing, otherwise lowercase hex of its nanoseconds-since-epoch; text
emits its raw UTF-8 bytes; an integer emits its lowercase hex. -/
def specEncodeScalar : SpecScalar → List Nat
  | .ts t => if t.isZero then [] else strBytes (intToHexStr t.unixNano)
  | .txt s => strBytes s
  | .num i => strBytes (intToHexStr i)

/-- One row of the spec's field table: storage name, hashed flag, field
value.  For the two `no_hash` fields the value is never encoded. -/
structure SpecField where
  storageName : String
  hashed : Bool
  value : LogItem → SpecScalar

/-- The storage fields in stable lexicographic order
(`ordered_storage_names()`), with the hashed flags of section 3: all
fields are hashed except `hash` and `verified`. -/
def specOrderedFields : List SpecField :=
  [{ storageName := "accountgroupid", hashed := true, value := fun l => .txt l.AccountGroupId },
   { storageName := "exception", hashed := true, value := fun l => .txt l.Exception },
   { storageName := "facility", hashed := true, value := fun l => .txt l.Facility },
   { storageName := "formatversion", hashed := true, value := fun l => .num l.FormatVersion },
   { storageName := "hash", hashed := false, value := fun l => .txt l.Hash },
   { storageName := "hostname", hashed := true, value := fun l => .txt l.Hostname },
   { storageName := "instanceid", hashed := true, value := fun l => .txt l.InstanceId },
   { storageName := "level", hashed := true, value := fun l => .txt l.Level },
   { storageName := "levelno", hashed := true, value := fun l => .num l.LevelNo },
   { storageName := "message", hashed := true, value := fun l => .txt l.Message },
   { storageName := "originatorip", hashed := true, value := fun l => .txt l.OriginatorIp },
   { storageName := "originatorport", hashed := true, value := fun l => .num l.OriginatorPort },
   { storageName := "originatortime", hashed := true, value := fun l => .ts l.OriginatorTime },
   { storageName := "pid", hashed := true, value := fun l => .num l.Pid },
   { storageName := "previoushash", hashed := true, value := fun l => .txt l.PreviousHash },
   { storageName := "sequenceid", hashed := true, value := fun l => .num l.SequenceId },
   { storageName := "shardgroup", hashed := true, value := fun l => .num l.ShardGroup },
   { storageName := "time", hashed := true, value := fun l => .ts l.Time },
   { storageName := "user", hashed := true, value := fun l => .txt l.User },
   { storageName := "verified", hashed := false, value := fun _ => .txt "" }]

/-- The canonical serialisation of section 4.3: per field the encoding
when hashed (nothing otherwise), a single 0x00 terminator regardless, and
the shared secret as raw UTF-8 bytes after the last field. -/
def specCanonicalBytes (l : LogItem) : List Nat :=
  (specOrderedFields.flatMap fun fd =>
    (if fd.hashed then specEncodeScalar (fd.value l) else []) ++ [0]) ++
  strBytes secret

/-- The hash value the specification prescribes for a record. -/
def specHashOf (l : LogItem) : String :=
  bytesToHexStr (sha256 (specCanonicalBytes l))

/- ## Query translator (httpserver.go: validateFieldQuery / jsonToDbKeys) -/

/-- A JSON value as Go's dynamic `interface` values present it to the
validator.  Go's `int`, `int64`, `uint` and `uint64` appear in every type
switch of httpserver.go as one case list with identical handling, so a
single `jint` constructor models them; the payloads of `float64` and
`time.Time` values are never inspected, only their dynamic type. -/
inductive JValue
  | jbool (b : Bool)
  | jint (i : Int)
  | jfloat
  | jstr (s : String)
  | jtime (t : GoTime)
  | jnull
  | jarr (elems : List JValue)
  | jobj (entries : List (String × JValue))

/-- The scalar case list
`bool, int, int64, uint, uint64, string, float64, time.Time`. -/
def scalarOk : JValue → Bool
  | .jbool _ => true
  | .jint _ => true
  | .jstr _ => true
  | .jfloat => true
  | .jtime _ => true
  | _ => false

mutual

/-- `validateFieldQuery` of httpserver.go.  A Go map is modelled as its
entry list (JSON objects have distinct keys). -/
def validateFieldQuery : List (String × JValue) → Except String Unit
  | t =>
    if t.length ≠ 1 then
      .error "JSON secondary query operators are a map with exactly one key"
    else validateFieldOps t
termination_by t => sizeOf t * 2 + 1

/-- The entry loop of `validateFieldQuery`. -/
def validateFieldOps : List (String × JValue) → Except String Unit
  | [] => .ok ()
  | (kk, vv) :: rest =>
    let checked : Except String Unit :=
      if kk == "$eq" || kk == "$ne" || kk == "$gt" || kk == "$gte" ||
         kk == "$lt" || kk == "$lte" then
        if scalarOk vv then .ok ()
        else .error "JSON relational operator must take simple field value"
      else if kk == "$in" || kk == "$nin" then
        match vv with
        | .jarr a =>
          if a.all scalarOk then .ok ()
          else .error "JSON list operator must take array of simple field values"
        | _ => .error "JSON list match operator must take an array"
      else if kk == "$not" then
        match vv with
        | .jobj m => validateFieldQuery m
        | _ => .error "JSON unary primary query operators must take a map"
      else .error "Unknown JSON secondary query operator"
    checked.bind fun _ => validateFieldOps rest
termination_by t => sizeOf t * 2
decreasing_by
  all_goals simp_wf
  all_goals omega

end

mutual

/-- `jsonToDbKeys` of httpserver.go: validates the query DSL and rewrites
every JSON field name to its storage name.  Go mutates the decoded value
in place; the model returns the rewritten value.  Go's map iteration
order is unspecified; the model visits entries in list order, which only
fixes which of several errors is reported. -/
def jsonToDbKeys : JValue → Except String JValue
  | .jobj m => (jsonEntriesToDbKeys m).map JValue.jobj
  | _ => .error "JSON primary query must be a map"
termination_by v => sizeOf v

/-- The value check of the field-name branch: a scalar passes, a map must
be a valid field operator, an array or nil is an unrecognised value
type. -/
def fieldValueCheck (v : JValue) : Except String Unit :=
  match v with
  | .jobj t => validateFieldQuery t
  | .jarr _ => .error "JSON field key with unrecognised value type"
  | .jnull => .error "JSON field key with unrecognised value type"
  | _ => .ok ()

/-- The entry loop of `jsonToDbKeys`. -/
def jsonEntriesToDbKeys : List (String × JValue) → Except String (List (String × JValue))
  | [] => .ok []
  | (k, v) :: rest =>
    match jsonMapList.lookup k with
    | some jk =>
      if hasFieldProperty jk .noQuery = false then
        (fieldValueCheck v).bind fun _ => (jsonEntriesToDbKeys rest).map ((jk, v) :: ·)
      else jsonOpToDbKeys k v rest
    | none => jsonOpToDbKeys k v rest
termination_by l => sizeOf l

/-- The `$`-operator branch of the entry loop. -/
def jsonOpToDbKeys (k : String) (v : JValue) (rest : List (String × JValue)) :
    Except String (List (String × JValue)) :=
  if headIs '$' k then
    if k == "$or" || k == "$and" || k == "$nor" then
      match v with
      | .jarr a =>
        if 0 < a.length then
          (jsonArrayToDbKeys a).bind fun a2 =>
            (jsonEntriesToDbKeys rest).map ((k, JValue.jarr a2) :: ·)
        else .error "JSON logical primary query operators must take a non-empty array"
      | _ => .error "JSON logical primary query operators must take a non-empty array"
    else .error "Bad JSON primary query operator"
  else .error "Bad JSON key"
termination_by sizeOf v + sizeOf rest

/-- The element loop inside a logical operator. -/
def jsonArrayToDbKeys : List JValue → Except String (List JValue)
  | [] => .ok []
  | x :: xs =>
    match x with
    | .jobj m =>
      (jsonToDbKeys (.jobj m)).bind fun x2 => (jsonArrayToDbKeys xs).map (x2 :: ·)
    | _ => .error "JSON logical primary query operators must take an array consisting only of maps"
termination_by l => sizeOf l
decreasing_by
  all_goals simp_wf
  all_goals omega

end

/-- The HTTP status `queryLogItem` replies for a request whose `query`
parameter decoded to `q` and that carries no `limit` or `sort`
parameters: 422 when `jsonToDbKeys` rejects, otherwise 302 (StatusFound)
with the streamed body. -/
def queryStatusForQuery (q : JValue) : Nat :=
  match jsonToDbKeys q with
  | .error _ => 422
  | .ok _ => 302

/- ## Sort parsing (httpserver.go: queryLogItem) -/

/-- One component of the `sort` parameter: lowercase, strip one optional
leading `-` (descending) or `+`, map the JSON name to its storage name,
reject unknown or `noquery` names. -/
def parseSortComponent (v : String) : Except String String :=
  let n := lowerStr v
  let desc := headIs '-' n
  let n := if headIs '-' n then tailStr n else if headIs '+' n then tailStr n else n
  match jsonMapList.lookup n with
  | some j =>
    if hasFieldProperty j .noQuery then .error "Cannot parse sort"
    else .ok (if desc then "-" ++ j else j)
  | none => .error "Cannot parse sort"

/-- The sort-parameter loop of `queryLogItem`: an absent/empty parameter
yields no sort keys, otherwise every comma-separated component must
translate. -/
def parseSort (sostring : String) : Except String (List String) :=
  if sostring.data.isEmpty then .ok []
  else (splitStr sostring ',').mapM parseSortComponent

/- ## Syslog ingress (syslog.go: processLogParts, client handling) -/

/-- `strconv.Atoi`.  Overflow outside int64 (an error in Go) is not
modelled; the inputs evaluated here are small. -/
def digitsVal : List Char → Option Nat
  | [] => none
  | ds =>
    ds.foldl
      (fun acc c =>
        acc.bind fun a => if c.isDigit then some (a * 10 + (c.toNat - 48)) else none)
      (some 0)

def atoi (s : String) : Option Int :=
  match s.data with
  | '-' :: ds => (digitsVal ds).map fun n => -(n : Int)
  | '+' :: ds => (digitsVal ds).map fun n => (n : Int)
  | ds => (digitsVal ds).map fun n => (n : Int)

/-- Split at the last colon. -/
def lastColonSplit (l : List Char) : Option (List Char × List Char) :=
  let (revPort, rest) := l.reverse.span fun c => !(c == ':')
  match rest with
  | ':' :: revHost => some (revHost.reverse, revPort.reverse)
  | _ => none

/-- `net.SplitHostPort`, modelled for the unbracketed forms: split at the
last colon; no colon at all, or a further colon in the host part
("too many colons"), is an error.  Bracketed IPv6 literals are not
modelled. -/
def splitHostPort (s : String) : Option (String × String) :=
  if s.data.contains '[' || s.data.contains ']' then none
  else
    match lastColonSplit s.data with
    | some (host, port) =>
      if host.contains ':' then none else some (String.mk host, String.mk port)
    | none => none

/-- Lines 77-84 of syslog.go: the handling of the parsed message's
`client` value.  When `SplitHostPort` succeeds the host is stored; the
port is assigned only under `err != nil` of `strconv.Atoi`, in which case
`iPort` is `Atoi`'s zero result. -/
def processClientPart (l : LogItem) (client : String) : LogItem :=
  match splitHostPort client with
  | none => l
  | some (host, port) =>
    let l1 := { l with OriginatorIp := host }
    match atoi port with
    | some _ => l1
    | none => { l1 with OriginatorPort := 0 }

/- ## Remaining definitions used by the claims -/

deriving instance DecidableEq for Except

/-- The boolean `checkHash` computes: the constant-time comparison of the
recomputed hash against the stored one. -/
def verifiedFlag (l : LogItem) : Bool :=
  constantTimeCompare (strBytes (specHashOf l)) (strBytes l.Hash) == 1

/-- The name a sort component is looked up under: lowercased, with one
optional leading sign stripped. -/
def sortNameOf (v : String) : String :=
  let n := lowerStr v
  if headIs '-' n then tailStr n else if headIs '+' n then tailStr n else n

/-- The record the append pipeline stores for a blank record normalised
at wall clock 0 into an empty store (the hex literal is the canonical
hash of that record). -/
def c3stored : LogItem :=
  { blankLogItem with
    LevelNo := -1, Time := ⟨false, 0⟩, OriginatorTime := ⟨false, 0⟩,
    FormatVersion := 1, ShardGroup := 1234,
    Hash := "1c61e8925ecb9c901ba0e8783f4151683446f3628298fcb1d3f03614a71fcbae" }

/- ## The canonical hasher agrees with the specification -/

lemma makeHashInput_eq (l : LogItem) : makeHashInput l = some (specCanonicalBytes l) := rfl

lemma makeHash_eq (l : LogItem) : makeHash l = some { l with Hash := specHashOf l } := by
  rw [makeHash, makeHashInput_eq]
  rfl

/- ## Supporting lemmas: UTF-8 byte strings are injective -/

lemma charToNat_inj {c₁ c₂ : Char} (h : c₁.toNat = c₂.toNat) : c₁ = c₂ :=
  Char.ext (UInt32.ext h)

lemma charBytes_cases (c : Char) :
    (c.toNat < 128 ∧ charBytes c = [c.toNat]) ∨
    (128 ≤ c.toNat ∧ c.toNat < 2048 ∧
      charBytes c = [192 + c.toNat / 64, 128 + c.toNat % 64]) ∨
    (2048 ≤ c.toNat ∧ c.toNat < 65536 ∧
      charBytes c = [224 + c.toNat / 4096, 128 + (c.toNat / 64) % 64, 128 + c.toNat % 64]) ∨
    (65536 ≤ c.toNat ∧
      charBytes c = [240 + c.toNat / 262144, 128 + (c.toNat / 4096) % 64,
                     128 + (c.toNat / 64) % 64, 128 + c.toNat % 64]) := by
  simp only [charBytes]
  split_ifs with h1 h2 h3 <;> simp_all

/-- The first byte of an encoded character determines its encoding class,
so an encoded character followed by arbitrary bytes determines both the
character and the remainder. -/
lemma charBytes_append_inj {c₁ c₂ : Char} {r₁ r₂ : List Nat}
    (h : charBytes c₁ ++ r₁ = charBytes c₂ ++ r₂) : c₁ = c₂ ∧ r₁ = r₂ := by
  rcases charBytes_cases c₁ with ⟨u1, e1⟩ | ⟨u1, u1w, e1⟩ | ⟨u1, u1w, e1⟩ | ⟨u1, e1⟩ <;>
    rcases charBytes_cases c₂ with ⟨u2, e2⟩ | ⟨u2, u2w, e2⟩ | ⟨u2, u2w, e2⟩ | ⟨u2, e2⟩ <;>
    rw [e1, e2] at h <;>
    try (exfalso
         have hb := congrArg List.headI h
         simp only [List.cons_append, List.headI] at hb
         omega)
  all_goals
    obtain ⟨hl, hr⟩ := List.append_inj h (by rfl)
    refine ⟨charToNat_inj ?_, hr⟩
    simp only [List.cons.injEq, and_true] at hl
    omega

lemma charBytes_ne_nil (c : Char) : charBytes c ≠ [] := by
  rcases charBytes_cases c with ⟨_, e⟩ | ⟨_, _, e⟩ | ⟨_, _, e⟩ | ⟨_, e⟩ <;> simp [e]

lemma flatMap_charBytes_inj : ∀ l₁ l₂ : List Char,
    l₁.flatMap charBytes = l₂.flatMap charBytes → l₁ = l₂ := by
  intro l₁
  induction l₁ with
  | nil =>
    intro l₂ h
    cases l₂ with
    | nil => rfl
    | cons b bs =>
      simp only [List.flatMap_nil, List.flatMap_cons] at h
      exact absurd (List.append_eq_nil.mp h.symm).1 (charBytes_ne_nil b)
  | cons a as ih =>
    intro l₂ h
    cases l₂ with
    | nil =>
      simp only [List.flatMap_nil, List.flatMap_cons] at h
      exact absurd (List.append_eq_nil.mp h).1 (charBytes_ne_nil a)
    | cons b bs =>
      simp only [List.flatMap_cons] at h
      obtain ⟨hc, hrest⟩ := charBytes_append_inj h
      rw [hc, ih bs hrest]

/-- Two Go strings with the same bytes are the same string. -/
lemma strBytes_inj {s₁ s₂ : String} (h : strBytes s₁ = strBytes s₂) : s₁ = s₂ :=
  String.ext (flatMap_charBytes_inj _ _ h)

/- ## Supporting lemmas: constant-time comparison is equality -/

lemma lor_eq_zero_iff (a b : Nat) : a ||| b = 0 ↔ a = 0 ∧ b = 0 := by
  constructor
  · intro h
    constructor <;> {
      apply Nat.eq_of_testBit_eq
      intro i
      have hb := congrArg (fun n => n.testBit i) h
      simp only [Nat.testBit_lor, Nat.zero_testBit, Bool.or_eq_false_iff] at hb
      simp [hb.1, hb.2]
    }
  · rintro ⟨rfl, rfl⟩; rfl

lemma foldl_lor_eq_zero {l : List Nat} {a : Nat} :
    l.foldl (· ||| ·) a = 0 ↔ a = 0 ∧ ∀ x ∈ l, x = 0 := by
  induction l generalizing a with
  | nil => simp
  | cons b t ih =>
    simp only [List.foldl_cons, ih, lor_eq_zero_iff, List.mem_cons]
    constructor
    · rintro ⟨⟨ha, hb⟩, ht⟩
      exact ⟨ha, fun x hx => hx.elim (fun e => e ▸ hb) (ht x)⟩
    · rintro ⟨ha, ht⟩
      exact ⟨⟨ha, ht b (Or.inl rfl)⟩, fun x hx => ht x (Or.inr hx)⟩

lemma zipWith_xor_zero {x y : List Nat} (hlen : x.length = y.length)
    (h : ∀ z ∈ List.zipWith (fun a b => a ^^^ b) x y, z = 0) : x = y := by
  induction x generalizing y with
  | nil =>
    cases y with
    | nil => rfl
    | cons b t => simp at hlen
  | cons a s ih =>
    cases y with
    | nil => simp at hlen
    | cons b t =>
      simp only [List.zipWith_cons_cons, List.mem_cons] at h
      have hab : a = b := Nat.xor_eq_zero.mp (h _ (Or.inl rfl))
      have hst : s = t := ih (by simpa using hlen) fun z hz => h z (Or.inr hz)
      rw [hab, hst]

lemma mem_zipWith_xor_self {x : List Nat} {z : Nat}
    (hz : z ∈ List.zipWith (fun a b => a ^^^ b) x x) : z = 0 := by
  induction x with
  | nil => simp at hz
  | cons a s ih =>
    simp only [List.zipWith_cons_cons, List.mem_cons] at hz
    rcases hz with rfl | hz
    · exact Nat.xor_self a
    · exact ih hz

lemma constantTimeCompare_eq_one_iff (x y : List Nat) :
    constantTimeCompare x y = 1 ↔ x = y := by
  unfold constantTimeCompare
  split_ifs with h1 h2
  · constructor
    · intro h; exact absurd h (by norm_num)
    · intro h; exact absurd (congrArg List.length h) h1
  · constructor
    · intro _
      exact zipWith_xor_zero (not_ne_iff.mp h1) fun z hz => (foldl_lor_eq_zero.mp h2).2 z hz
    · intro _; rfl
  · constructor
    · intro h; exact absurd h (by norm_num)
    · intro h
      subst h
      exact absurd (foldl_lor_eq_zero.mpr ⟨rfl, fun z hz => mem_zipWith_xor_self hz⟩) h2

/- ## Supporting lemmas: the executor's verification flag -/

lemma checkHash_eq (l : LogItem) : checkHash l = some (l, verifiedFlag l) := by
  rw [checkHash, makeHash_eq]; rfl

lemma verifiedFlag_iff (l : LogItem) : verifiedFlag l = true ↔ specHashOf l = l.Hash := by
  unfold verifiedFlag
  rw [beq_iff_eq, constantTimeCompare_eq_one_iff]
  exact ⟨fun h => strBytes_inj h, fun h => h ▸ rfl⟩

lemma mapM_loop_some {α β : Type} (f : α → β) :
    ∀ (l : List α) (acc : List β),
      List.mapM.loop (fun a => some (f a)) l acc = some (acc.reverse ++ l.map f) := by
  intro l
  induction l with
  | nil => intro acc; simp [List.mapM.loop]
  | cons a t ih =>
    intro acc
    simp [List.mapM.loop, ih]

lemma mapM_some {α β : Type} (f : α → β) (l : List α) :
    (l.mapM fun a => some (f a)) = some (l.map f) := by
  have h := mapM_loop_some f l []
  simpa [List.mapM] using h

lemma queryLogItems_eq (rs : List LogItem) (limit : Int) :
    queryLogItems rs limit =
      some ((applyLimit limit rs).map fun r => { r with Verified := verifiedFlag r },
            ((applyLimit limit rs).map fun r => { r with Verified := verifiedFlag r }).length,
            true) := by
  unfold queryLogItems
  simp only [checkHash_eq, Option.map_some']
  rw [mapM_some]
  rfl

/- ## Supporting lemmas: the chain-head lookup -/

lemma foldl_headUpd_isSome : ∀ (t : List LogItem) (p : LogItem),
    (t.foldl headUpd (some p)).isSome = true := by
  intro t
  induction t with
  | nil => intro p; rfl
  | cons r t' ih =>
    intro p
    simp only [List.foldl_cons, headUpd]
    split <;> apply ih

lemma foldl_headUpd_max : ∀ (t : List LogItem) (acc : Option LogItem) (q : LogItem),
    t.foldl headUpd acc = some q →
    (q ∈ t ∨ acc = some q) ∧ (∀ r ∈ t, r.SequenceId ≤ q.SequenceId) ∧
      (∀ p, acc = some p → p.SequenceId ≤ q.SequenceId) := by
  intro t
  induction t with
  | nil =>
    intro acc q h
    simp only [List.foldl_nil] at h
    refine ⟨Or.inr h, by simp, fun p hp => ?_⟩
    rw [hp] at h
    injection h with h
    exact h ▸ le_rfl
  | cons r t' ih =>
    intro acc q h
    simp only [List.foldl_cons] at h
    obtain ⟨hmem, hmax, hacc⟩ := ih (headUpd acc r) q h
    have hupd : ∀ p, acc = some p → headUpd acc r = some r ∨ headUpd acc r = some p := by
      intro p hp
      rw [hp]
      simp only [headUpd]
      split
      · exact Or.inl rfl
      · exact Or.inr rfl
    have hr_le : r.SequenceId ≤ q.SequenceId := by
      cases hacc2 : acc with
      | none =>
        apply hacc
        rw [hacc2]
        rfl
      | some p =>
        rcases hupd p hacc2 with h' | h'
        · exact hacc r h'
        · by_cases hlt : p.SequenceId < r.SequenceId
          · have hle := hacc p h'
            rw [hacc2] at h'
            simp only [headUpd, if_pos hlt] at h'
            injection h' with h'
            exact h' ▸ hle
          · exact le_trans (le_of_not_lt hlt) (hacc p h')
    refine ⟨?_, ?_, ?_⟩
    · rcases hmem with hq | hq
      · exact Or.inl (List.mem_cons_of_mem _ hq)
      · cases hacc2 : acc with
        | none =>
          rw [hacc2] at hq
          simp only [headUpd] at hq
          injection hq with hq
          exact Or.inl (hq ▸ List.mem_cons_self _ _)
        | some p =>
          rw [hacc2] at hq
          simp only [headUpd] at hq
          split at hq
          · injection hq with hq
            exact Or.inl (hq ▸ List.mem_cons_self _ _)
          · exact Or.inr (hacc2 ▸ hq)
    · intro s hs
      rcases List.mem_cons.mp hs with rfl | hs'
      · exact hr_le
      · exact hmax s hs'
    · intro p hp
      rcases hupd p hp with h' | h'
      · by_cases hlt : p.SequenceId < r.SequenceId
        · exact le_trans (le_of_lt hlt) hr_le
        · rw [hp] at h'
          simp only [headUpd, if_neg hlt] at h'
          injection h' with h'
          exact h' ▸ hr_le
      · exact hacc p h'

/-- `findHead` returns nothing exactly when the shard has no records. -/
lemma findHead_none_iff (store : List LogItem) (sg : Int) :
    findHead store sg = none ↔ (store.filter fun r => r.ShardGroup == sg) = [] := by
  unfold findHead
  cases hf : (store.filter fun r => r.ShardGroup == sg) with
  | nil => simp
  | cons r t =>
    simp only [List.foldl_cons]
    constructor
    · intro h
      have hs := foldl_headUpd_isSome t r
      have : headUpd none r = some r := rfl
      rw [this] at h
      rw [h] at hs
      simp at hs
    · intro h
      cases h

/-- A head returned by `findHead` belongs to the shard and carries its
largest `SequenceId`. -/
lemma findHead_some_spec {store : List LogItem} {sg : Int} {p : LogItem}
    (h : findHead store sg = some p) :
    p ∈ store ∧ p.ShardGroup = sg ∧
      ∀ r ∈ store, r.ShardGroup = sg → r.SequenceId ≤ p.SequenceId := by
  unfold findHead at h
  obtain ⟨hmem, hmax, _⟩ := foldl_headUpd_max _ none p h
  have hp : p ∈ store.filter (fun r => r.ShardGroup == sg) := by
    rcases hmem with h' | h'
    · exact h'
    · cases h'
  refine ⟨(List.mem_filter.mp hp).1, by simpa using (List.mem_filter.mp hp).2, ?_⟩
  intro r hr hrsg
  exact hmax r (List.mem_filter.mpr ⟨hr, by simpa using hrsg⟩)

/- ## Supporting lemmas: the level map -/

lemma lookup_mem {l : List (String × Int)} {k : String} {v : Int}
    (h : l.lookup k = some v) : (k, v) ∈ l := by
  induction l with
  | nil => simp [List.lookup] at h
  | cons p t ih =>
    obtain ⟨a, b⟩ := p
    simp only [List.lookup] at h
    rcases hk : (k == a) with _ | _ <;> rw [hk] at h
    · exact List.mem_cons_of_mem _ (ih h)
    · injection h with h
      have hka : k = a := by simpa using hk
      subst hka; subst h
      exact List.mem_cons_self _ _

/-- Every level number in `levelMap` is at least −1. -/
lemma levelMap_lookup_ge {s : String} {v : Int} (h : levelMap.lookup s = some v) :
    -1 ≤ v := by
  have hm := lookup_mem h
  simp only [levelMap, List.mem_cons, List.not_mem_nil, or_false, Prod.mk.injEq] at hm
  rcases hm with ⟨_, rfl⟩ | ⟨_, rfl⟩ | ⟨_, rfl⟩ | ⟨_, rfl⟩ | ⟨_, rfl⟩ | ⟨_, rfl⟩ |
    ⟨_, rfl⟩ | ⟨_, rfl⟩ | ⟨_, rfl⟩ | ⟨_, rfl⟩ | ⟨_, rfl⟩ | ⟨_, rfl⟩ <;> omega

/- ## Digest shape lemmas -/

lemma sha256Compress_length (hs block : List Nat) : (sha256Compress hs block).length = 8 := rfl

lemma foldl_compress_length (bs : List (List Nat)) (hs : List Nat) (h : hs.length = 8) :
    (bs.foldl sha256Compress hs).length = 8 := by
  induction bs generalizing hs with
  | nil => exact h
  | cons b t ih => exact ih _ (sha256Compress_length _ _)

lemma flatMap_be32_length (l : List Nat) : (l.flatMap be32).length = 4 * l.length := by
  induction l with
  | nil => rfl
  | cons a t ih =>
    simp only [List.flatMap_cons, List.length_append, ih, be32, List.length_cons]
    simp [List.length]
    ring

lemma sha256_length (msg : List Nat) : (sha256 msg).length = 32 := by
  simp only [sha256]
  rw [flatMap_be32_length, foldl_compress_length _ _ (by rfl)]

lemma mem_flatMap_be32_lt {l : List Nat} {b : Nat} (h : b ∈ l.flatMap be32) : b < 256 := by
  induction l with
  | nil => simp at h
  | cons a t ih =>
    simp only [List.flatMap_cons, List.mem_append] at h
    rcases h with h | h
    · simp only [be32, List.mem_cons, List.not_mem_nil, or_false] at h
      rcases h with rfl | rfl | rfl | rfl <;> exact Nat.mod_lt _ (by norm_num)
    · exact ih h

lemma digitChar_mem_hex {n : Nat} (h : n < 16) :
    isLowerHexDigit (Nat.digitChar n) = true := by
  interval_cases n <;> decide

lemma mem_bytesToHex_hex {bs : List Nat} (hb : ∀ b ∈ bs, b < 256) :
    ∀ c ∈ (bytesToHexStr bs).data, isLowerHexDigit c = true := by
  intro c hc
  simp only [bytesToHexStr] at hc
  induction bs with
  | nil => simp at hc
  | cons a t ih =>
    simp only [List.flatMap_cons, List.mem_append] at hc
    rcases hc with hc | hc
    · simp only [byteToHex, List.mem_cons, List.not_mem_nil, or_false] at hc
      rcases hc with rfl | rfl
      · exact digitChar_mem_hex (Nat.div_lt_of_lt_mul (by simpa using hb a (by simp)))
      · exact digitChar_mem_hex (Nat.mod_lt _ (by norm_num))
    · exact ih (fun b hbm => hb b (List.mem_cons_of_mem _ hbm)) hc

lemma mem_sha256_lt {msg : List Nat} {b : Nat} (h : b ∈ sha256 msg) : b < 256 := by
  simp only [sha256] at h
  exact mem_flatMap_be32_lt h

/-- Claim C1: the canonical hasher produces the lowercase 64-character
hex of SHA-256 over the specification's serialisation: storage fields in
stable lexicographic order, the type-specific encoding (nothing for
no-hash fields, nothing for zero timestamps else hex nanoseconds, raw
UTF-8 text, hex integers), one 0x00 terminator per field, and the shared
secret after the last field. -/
theorem claim_C1 (l : LogItem) :
    makeHash l = some { l with Hash := bytesToHexStr (sha256 (specCanonicalBytes l)) } ∧
    (bytesToHexStr (sha256 (specCanonicalBytes l))).data.length = 64 ∧
    ∀ c ∈ (bytesToHexStr (sha256 (specCanonicalBytes l))).data,
      isLowerHexDigit c = true := by
  refine ⟨makeHash_eq l, ?_, mem_bytesToHex_hex fun b hb => mem_sha256_lt hb⟩
  simp only [bytesToHexStr]
  have hlen : ∀ bs : List Nat, (bs.flatMap byteToHex).length = 2 * bs.length := by
    intro bs
    induction bs with
    | nil => rfl
    | cons a t ih => simp [byteToHex, ih]; ring
  rw [hlen, sha256_length]

set_option maxRecDepth 100000 in
theorem claim_C1_witness :
    makeHash blankLogItem =
      some { blankLogItem with
             Hash := bytesToHexStr (sha256 (specCanonicalBytes blankLogItem)) } ∧
    (bytesToHexStr (sha256 (specCanonicalBytes blankLogItem))).data.length = 64 ∧
    isLowerHexDigit 'a' = true :=
  ⟨(claim_C1 blankLogItem).1, (claim_C1 blankLogItem).2.1,
   (claim_C1 blankLogItem).2.2 'a' (by decide)⟩

/-- Claim C2: each append iteration looks up the shard's record with the
highest sequence id; an empty shard yields previous hash "" and sequence
id 0, otherwise the head's hash and its sequence id plus one. -/
theorem claim_C2 (l : LogItem) (store : List LogItem) :
    ((store.filter fun r => r.ShardGroup == l.ShardGroup) = [] →
      assignPrev l (findHead store l.ShardGroup) =
        { l with PreviousHash := "", SequenceId := 0 }) ∧
    (∀ p, findHead store l.ShardGroup = some p →
      p ∈ store ∧ p.ShardGroup = l.ShardGroup ∧
      (∀ r ∈ store, r.ShardGroup = l.ShardGroup → r.SequenceId ≤ p.SequenceId) ∧
      assignPrev l (findHead store l.ShardGroup) =
        { l with PreviousHash := p.Hash, SequenceId := p.SequenceId + 1 }) ∧
    (findHead store l.ShardGroup = none ↔
      (store.filter fun r => r.ShardGroup == l.ShardGroup) = []) := by
  refine ⟨?_, ?_, findHead_none_iff store l.ShardGroup⟩
  · intro h
    rw [(findHead_none_iff store l.ShardGroup).mpr h]
    rfl
  · intro p hp
    obtain ⟨h1, h2, h3⟩ := findHead_some_spec hp
    exact ⟨h1, h2, h3, by rw [hp]; rfl⟩

theorem claim_C2_witness :
    assignPrev { blankLogItem with ShardGroup := 7 }
        (findHead
          [{ blankLogItem with ShardGroup := 7, SequenceId := 0, Hash := "aa" },
           { blankLogItem with ShardGroup := 7, SequenceId := 1, Hash := "bb" },
           { blankLogItem with ShardGroup := 9, SequenceId := 5, Hash := "cc" }] 7) =
      { blankLogItem with ShardGroup := 7, PreviousHash := "bb", SequenceId := 2 } ∧
    assignPrev { blankLogItem with ShardGroup := 7 } (findHead [] 7) =
      { blankLogItem with ShardGroup := 7, PreviousHash := "", SequenceId := 0 } := by
  constructor
  · have h := (claim_C2 { blankLogItem with ShardGroup := 7 }
      [{ blankLogItem with ShardGroup := 7, SequenceId := 0, Hash := "aa" },
       { blankLogItem with ShardGroup := 7, SequenceId := 1, Hash := "bb" },
       { blankLogItem with ShardGroup := 9, SequenceId := 5, Hash := "cc" }]).2.1
      { blankLogItem with ShardGroup := 7, SequenceId := 1, Hash := "bb" } (by decide)
    rw [h.2.2.2]
    decide
  · have h := (claim_C2 { blankLogItem with ShardGroup := 7 } []).1 (by decide)
    rw [h]

lemma assignPrev_Verified (l : LogItem) (prev : Option LogItem) :
    (assignPrev l prev).Verified = l.Verified := by
  cases prev <;> rfl

lemma setHash_Verified (x : LogItem) (s : String) :
    ({ x with Hash := s }).Verified = x.Verified := rfl

lemma setVerified_Verified (x : LogItem) (b : Bool) :
    ({ x with Verified := b }).Verified = b := rfl

/-- Claim C3: normalisation clears the verified flag, the record given to
the store keeps it false, and only the in-memory record returned after a
successful insert carries verified = true. -/
theorem claim_C3 (r : LogItem) (now : GoTime) (store : List LogItem) (stored ret : LogItem)
    (h : appendSuccess store (prepareInsert (normalise r now)) = some (stored, ret)) :
    (normalise r now).Verified = false ∧ stored.Verified = false ∧ ret.Verified = true := by
  unfold appendSuccess appendIteration at h
  rw [makeHash_eq, Option.map_some'] at h
  injection h with h
  have hs := congrArg Prod.fst h
  have hr := congrArg Prod.snd h
  simp only at hs hr
  have hv := congrArg LogItem.Verified hs
  have hv2 := congrArg LogItem.Verified hr
  simp only [] at hv hv2
  rw [assignPrev_Verified] at hv
  refine ⟨rfl, ?_, hv2.symm⟩
  rw [← hv]
  rfl

set_option maxRecDepth 100000 in
theorem claim_C3_witness :
    (normalise blankLogItem ⟨false, 0⟩).Verified = false ∧
    c3stored.Verified = false ∧ ({ c3stored with Verified := true }).Verified = true :=
  claim_C3 blankLogItem ⟨false, 0⟩ [] c3stored { c3stored with Verified := true } (by decide)

/-- Claim C5 is corrected by this counterexample: the normaliser maps an
unknown level to level_no = −1, a negative value in a hashed field, and
the canonical serialisation of such a record contains the minus-sign
byte 0x2d. -/
theorem claim_C5_counterexample :
    (normalise { blankLogItem with Level := "mystery" } ⟨false, 0⟩).LevelNo = -1 ∧
    hasFieldProperty "levelno" FieldProp.noHash = false ∧
    (normalise { blankLogItem with Level := "mystery" } ⟨false, 0⟩).LevelNo < 0 ∧
    45 ∈ specCanonicalBytes (normalise { blankLogItem with Level := "mystery" } ⟨false, 0⟩) := by
  decide

/-- Claim C5 as amended: level_no is −1 (negative, hashed) whenever the
level is unknown, and otherwise at least −1; the integer fields the
pipeline itself assigns — format_version, shard_group, sequence_id — are
nonnegative; the hasher encodes −1 as the string "-1". -/
theorem claim_C5_amended (l : LogItem) (now : GoTime) :
    (levelMap.lookup (lowerStr l.Level) = none → (normalise l now).LevelNo = -1) ∧
    -1 ≤ (normalise l now).LevelNo ∧
    (normalise l now).FormatVersion = 1 ∧
    (0 : Int) ≤ shardGroup ∧
    (assignPrev l none).SequenceId = 0 ∧
    (∀ p, 0 ≤ p.SequenceId → 0 ≤ (assignPrev l (some p)).SequenceId) ∧
    intToHexStr (-1) = "-1" := by
  refine ⟨?_, ?_, rfl, by norm_num [shardGroup], rfl, ?_, by rfl⟩
  · intro h
    simp only [normalise, h]
    rfl
  · show -1 ≤ (match levelMap.lookup (lowerStr l.Level) with
      | some v => v
      | none => (levelMap.lookup "none").getD 0)
    cases hl : levelMap.lookup (lowerStr l.Level) with
    | some v => exact levelMap_lookup_ge hl
    | none => decide
  · intro p hp
    simp only [assignPrev]
    omega

theorem claim_C5_amended_witness :
    (normalise { blankLogItem with Level := "zzz" } ⟨false, 3⟩).LevelNo = -1 ∧
    0 ≤ (assignPrev { blankLogItem with Level := "zzz" }
          (some { blankLogItem with SequenceId := 41 })).SequenceId := by
  have h := claim_C5_amended { blankLogItem with Level := "zzz" } ⟨false, 3⟩
  exact ⟨h.1 (by decide), h.2.2.2.2.2.1 _ (by decide)⟩

/-- Claim C6 names a code bug: for a syslog message whose client value
parses as host:port, the code stores the host but never the port — the
assignment is guarded by `err != nil` of `strconv.Atoi`, so it only runs
when the port fails to parse, and then assigns `Atoi`'s zero result.  At
client "10.0.0.1:514" the port parses (to 514), yet the stored record
keeps originator_port = 0. -/
theorem claim_C6_code_bug :
    splitHostPort "10.0.0.1:514" = some ("10.0.0.1", "514") ∧
    atoi "514" = some 514 ∧
    processClientPart blankLogItem "10.0.0.1:514" =
      { blankLogItem with OriginatorIp := "10.0.0.1" } ∧
    (processClientPart blankLogItem "10.0.0.1:514").OriginatorPort = 0 := by
  decide

/-- Claim C7: normalise is idempotent once the two timestamps are
non-zero — a second application, at any later wall clock, changes
nothing. -/
theorem claim_C7 (l : LogItem) (now now2 : GoTime)
    (h1 : (normalise l now).Time.isZero = false)
    (h2 : (normalise l now).OriginatorTime.isZero = false) :
    normalise (normalise l now) now2 = normalise l now := by
  simp only [normalise] at h1 h2 ⊢
  simp [h1, h2]

theorem claim_C7_witness :
    normalise (normalise blankLogItem ⟨false, 5⟩) ⟨false, 9⟩ =
      normalise blankLogItem ⟨false, 5⟩ :=
  claim_C7 blankLogItem ⟨false, 5⟩ ⟨false, 9⟩ (by decide) (by decide)

/-- Claim C9: checkHash recomputes the hash on a copy, leaving the
receiver unchanged, and returns true exactly when the recomputed
canonical hash equals the stored hash field. -/
theorem claim_C9 (l : LogItem) (post : LogItem) (b : Bool)
    (h : checkHash l = some (post, b)) :
    post = l ∧ (b = true ↔ specHashOf l = l.Hash) := by
  rw [checkHash_eq] at h
  injection h with h
  simp only [Prod.mk.injEq] at h
  refine ⟨h.1.symm, ?_⟩
  rw [← h.2]
  exact verifiedFlag_iff l

set_option maxRecDepth 100000 in
theorem claim_C9_witness :
    blankLogItem = blankLogItem ∧
      (false = true ↔ specHashOf blankLogItem = blankLogItem.Hash) :=
  claim_C9 blankLogItem blankLogItem false (by decide)

/-- Claim C10: a zero or negative limit means no limit — the limit is
passed to the store only when strictly positive, and otherwise every
matching record is streamed, with its verification flag, and counted. -/
theorem claim_C10 (rs : List LogItem) (limit : Int) (so : List String)
    (h : limit ≤ 0) :
    applyLimit limit rs = rs ∧
    (buildStoreQuery so limit).limit = none ∧
    queryLogItems rs limit =
      some (rs.map fun r => { r with Verified := verifiedFlag r }, rs.length, true) := by
  have ha : applyLimit limit rs = rs := by
    unfold applyLimit
    rw [if_neg (by omega)]
  refine ⟨ha, ?_, ?_⟩
  · unfold buildStoreQuery
    simp only
    rw [if_neg (by omega)]
  · rw [queryLogItems_eq, ha, List.length_map]

theorem claim_C10_witness :
    applyLimit (-3) [] = [] ∧
    (buildStoreQuery ["level"] (-3)).limit = none ∧
    queryLogItems [] (-3) = some ([], 0, true) := by
  have h := claim_C10 [] (-3) ["level"] (by decide)
  simpa using h

lemma jsonOpToDbKeys_not_dollar {k : String} (v : JValue) (rest : List (String × JValue))
    (hd : headIs '$' k = false) :
    jsonOpToDbKeys k v rest = .error "Bad JSON key" := by
  cases v <;> simp [jsonOpToDbKeys, hd]

/-- Claim C4 is corrected by this counterexample: `hash` carries only the
`nohash` flag, not `noquery`, so the registry treats it as queryable and
the query naming it is accepted (302), not rejected with 422. -/
theorem claim_C4_counterexample :
    jsonMapList.lookup "hash" = some "hash" ∧
    hasFieldProperty "hash" FieldProp.noQuery = false ∧
    (jsonToDbKeys (.jobj [("hash", .jobj [("$eq", .jstr "x")])])).isOk = true ∧
    queryStatusForQuery (.jobj [("hash", .jobj [("$eq", .jstr "x")])]) ≠ 422 := by
  refine ⟨by decide, by decide, ?_, ?_⟩ <;>
    simp +decide [queryStatusForQuery, jsonToDbKeys, jsonEntriesToDbKeys,
      fieldValueCheck, validateFieldQuery, validateFieldOps, scalarOk]

/-- Claim C4 as amended: a query naming a JSON key that is unknown to the
registry, or known but flagged `noquery` (only `verified`), is rejected
with ErrBadQuery and answered 422; `hash` is queryable, so the query on
it is accepted and answered 302. -/
theorem claim_C4_amended :
    (∀ k v, jsonMapList.lookup k = none → headIs '$' k = false →
      jsonToDbKeys (.jobj [(k, v)]) = .error "Bad JSON key") ∧
    (∀ k jk v, jsonMapList.lookup k = some jk →
      hasFieldProperty jk FieldProp.noQuery = true → headIs '$' k = false →
      jsonToDbKeys (.jobj [(k, v)]) = .error "Bad JSON key") ∧
    queryStatusForQuery (.jobj [("hash", .jobj [("$eq", .jstr "x")])]) = 302 ∧
    queryStatusForQuery (.jobj [("verified", .jobj [("$eq", .jbool true)])]) = 422 := by
  refine ⟨?_, ?_, ?_, ?_⟩
  · intro k v hnone hd
    simp [jsonToDbKeys, jsonEntriesToDbKeys, hnone, jsonOpToDbKeys_not_dollar _ _ hd,
      Except.map]
  · intro k jk v hs hq hd
    simp [jsonToDbKeys, jsonEntriesToDbKeys, hs, hq, jsonOpToDbKeys_not_dollar _ _ hd,
      Except.map]
  · simp +decide [queryStatusForQuery, jsonToDbKeys, jsonEntriesToDbKeys,
      fieldValueCheck, validateFieldQuery, validateFieldOps, scalarOk]
  · simp +decide [queryStatusForQuery, jsonToDbKeys, jsonEntriesToDbKeys,
      jsonOpToDbKeys, fieldValueCheck, validateFieldQuery, validateFieldOps, scalarOk]

theorem claim_C4_amended_witness :
    jsonToDbKeys (.jobj [("bogus", .jstr "x")]) = .error "Bad JSON key" ∧
    jsonToDbKeys (.jobj [("verified", .jbool true)]) = .error "Bad JSON key" := by
  have h := claim_C4_amended
  exact ⟨h.1 "bogus" (.jstr "x") (by decide) (by decide),
         h.2.1 "verified" "verified" (.jbool true) (by decide) (by decide) (by decide)⟩

/-- Claim C8: the sort parser handles each comma-separated component
independently; a component that is a queryable JSON field name, bare or
prefixed `+`, maps to its storage name, and prefixed `-` to the
descending form; a component whose stripped, lowercased name is unknown
or not queryable is rejected; and the store query always carries the
intrinsic `_id` tie-breaker after the caller's sort keys. -/
theorem claim_C8 :
    (∀ s : String, s.data.isEmpty = false →
      parseSort s = (splitStr s ',').mapM parseSortComponent) ∧
    (∀ p ∈ jsonMapList, hasFieldProperty p.2 FieldProp.noQuery = false →
      parseSortComponent p.1 = .ok p.2 ∧
      parseSortComponent ("-" ++ p.1) = .ok ("-" ++ p.2) ∧
      parseSortComponent ("+" ++ p.1) = .ok p.2) ∧
    (∀ v : String, jsonMapList.lookup (sortNameOf v) = none →
      parseSortComponent v = .error "Cannot parse sort") ∧
    (∀ v j, jsonMapList.lookup (sortNameOf v) = some j →
      hasFieldProperty j FieldProp.noQuery = true →
      parseSortComponent v = .error "Cannot parse sort") ∧
    (∀ sortOrder limit, (buildStoreQuery sortOrder limit).sortKeys = sortOrder ++ ["_id"]) := by
  refine ⟨?_, by decide, ?_, ?_, fun so lim => rfl⟩
  · intro s h
    simp [parseSort, h]
  · intro v hnone
    simp only [parseSortComponent, sortNameOf] at hnone ⊢
    rw [hnone]
  · intro v j hsome hq
    simp only [parseSortComponent, sortNameOf] at hsome ⊢
    rw [hsome]
    simp [hq]

theorem claim_C8_witness :
    parseSort "level,-time" = .ok ["level", "-time"] ∧
    parseSortComponent "-level" = .ok "-level" ∧
    parseSortComponent "+pid" = .ok "pid" ∧
    parseSortComponent "verified" = .error "Cannot parse sort" ∧
    parseSortComponent "bogus" = .error "Cannot parse sort" ∧
    (buildStoreQuery ["level"] 5).sortKeys = ["level", "_id"] := by
  have h := claim_C8
  refine ⟨?_, ?_, ?_, ?_, ?_, h.2.2.2.2 ["level"] 5⟩
  · rw [h.1 "level,-time" (by decide)]
    decide
  · exact (h.2.1 ("level", "level") (by decide) (by decide)).2.1
  · exact (h.2.1 ("pid", "pid") (by decide) (by decide)).2.2
  · exact h.2.2.2.1 "verified" "verified" (by decide) (by decide)
  · exact h.2.2.1 "bogus" (by decide)
